import Mathlib

/-!
Shallow embedding of the iavl v2→v3 sqlite migration tool
(`v2/migrate_v2.go` of SaharaLabsAI/iavl-migration), together with
theorems settling the specification claims about it.

Conventions of the embedding:
* sqlite tables are lists of row records, in physical (rowid / insertion)
  order; `BLOB` payloads and keys are `List Nat` byte strings.
* Go `int64` values are `Int`; the only division in the source,
  `(version-1)/500000` in `ToShardID`, is applied to a non-negative
  numerator (guarded by `version <= 0`), where Go's truncating division
  coincides with Lean's Euclidean `/`.
* Fallible SQL operations are driven by an explicit error oracle: a record
  saying which operation fails.  `log.Fatalf` (process abort) and returned
  `error`s are distinct result constructors, because the claims distinguish
  them.
-/

/-- The sqlite column `at` (`orphan` tables); `at` is a Lean keyword, hence
the trailing underscore. -/
structure OrphanRow where
  version : Int
  sequence : Int
  at_ : Int
deriving DecidableEq

/-- A row of the source `tree_1` branch table: `version INT` (nullable in
sqlite, hence `Option`), `sequence INT`, `bytes BLOB`, `orphaned BOOL`. -/
structure BranchRow where
  version : Option Int
  sequence : Int
  bytes : List Nat
  orphaned : Bool
deriving DecidableEq

/-- A row of the `root` table. -/
structure RootRow where
  version : Int
  node_version : Int
  node_sequence : Int
  bytes : List Nat
deriving DecidableEq

/-- The source tree database (`tree.sqlite`, v2 layout): a single branch
table `tree_1`, a `root` table and an `orphan` table.  `orphan = none`
models a source file in which the `orphan` table is absent, so that
`INSERT ... SELECT ... FROM old.orphan` fails. -/
structure TreeDB where
  tree1 : List BranchRow
  root : List RootRow
  orphan : Option (List OrphanRow)
deriving DecidableEq

/-- The destination tree database (v3 layout): `root`, `branch_orphan`, and
one branch table per created shard, listed as `(shardID, rows)` in creation
order. -/
structure NewTreeDB where
  root : List RootRow
  branch_orphan : List OrphanRow
  shards : List (Int × List BranchRow)
deriving DecidableEq

/-- Function `ToShardID` from migrate_v2.go: non-positive versions map to shard 1,
otherwise `(version-1)/500000 + 1` (Go truncating division; the numerator is
non-negative here so it equals Lean's `/`). -/
def ToShardID (version : Int) : Int :=
  let defaultStartShardID : Int := 1
  let defaultTreeShardSize : Int := 500000
  if version ≤ 0 then defaultStartShardID
  else (version - 1) / defaultTreeShardSize + defaultStartShardID

/-- The ascending integer run `a, a+1, …` of length `n`; used to model the Go
loop `for shardID := minShard; shardID <= maxShard; shardID++`. -/
def intRun (a : Int) : Nat → List Int
  | 0 => []
  | n + 1 => a :: intRun (a + 1) n

/-- Function `calculateShardRange` from migrate_v2.go: `[1]` when either bound is
non-positive, else the ascending run `ToShardID minV, …, ToShardID maxV`. -/
def calculateShardRange (minVersion maxVersion : Int) : List Int :=
  if minVersion ≤ 0 ∨ maxVersion ≤ 0 then [1]
  else
    let minShard := ToShardID minVersion
    let maxShard := ToShardID maxVersion
    intRun minShard (maxShard - minShard + 1).toNat

/-- The value `startVersion := (shardID-1)*500000 + 1` from the shard copy loop. -/
def shardStartVersion (shardID : Int) : Int := (shardID - 1) * 500000 + 1

/-- The value `endVersion := shardID * 500000` from the shard copy loop. -/
def shardEndVersion (shardID : Int) : Int := shardID * 500000

/-- The `WHERE version >= startVersion AND version <= endVersion` predicate
of a shard's `INSERT ... SELECT`; a SQL comparison with `NULL` is not true,
so a row with a null version matches no shard's predicate. -/
def rowInShard (shardID : Int) (r : BranchRow) : Bool :=
  match r.version with
  | none => false
  | some v => decide (shardStartVersion shardID ≤ v) && decide (v ≤ shardEndVersion shardID)

/-- Rows `a` and `b` agree on the deduplication key `(version, sequence)`
(the `PARTITION BY version, sequence` of the copy statement). -/
def sameKey (a b : BranchRow) : Bool :=
  a.version == b.version && a.sequence == b.sequence

/-- Deduplication semantics of
`ROW_NUMBER() OVER (PARTITION BY version, sequence ORDER BY rowid) … WHERE rn = 1`:
keep, for each `(version, sequence)` key, the physically first row. -/
def dedupFirst : List BranchRow → List BranchRow
  | [] => []
  | r :: rs => r :: (dedupFirst rs).filter (fun s => !(sameKey s r))

/-- Aggregate `SELECT MIN(version) FROM tree_1 WHERE version IS NOT NULL`:
`none` when there is no non-null version. -/
def minAgg : List Int → Option Int
  | [] => none
  | v :: vs =>
    match minAgg vs with
    | none => some v
    | some m => some (if v ≤ m then v else m)

/-- Aggregate `SELECT MAX(version) FROM tree_1 WHERE version IS NOT NULL`. -/
def maxAgg : List Int → Option Int
  | [] => none
  | v :: vs =>
    match maxAgg vs with
    | none => some v
    | some m => some (if v ≤ m then m else v)

-- The tree store migrator (`migrateTree`).

/-- The SQL statements `migrateTree` executes through its `exec` helper
(whose failure is `log.Fatalf`, i.e. process-fatal). -/
inductive TreeStmt where
  | createBranchOrphan
  | createRoot
  | attachOld
  | insertRoot
  | insertBranchOrphan
  | createShard (shardID : Int)
  | insertShard (shardID : Int)
  | detachOld
deriving DecidableEq

/-- Error oracle for one `migrateTree` run: which environment step, query or
`exec`'d statement fails. -/
structure TreeOracle where
  openOldFails : Bool
  mkdirFails : Bool
  openNewFails : Bool
  countTreeFails : Bool
  countRootFails : Bool
  minMaxFails : Bool
  execFails : TreeStmt → Bool

/-- Outcome of `migrateTree`: a returned destination database (`nil` error in
Go), a returned `error`, or a `log.Fatalf` process abort naming the `exec`'d
statement that failed. -/
inductive TreeResult where
  | ok (dest : NewTreeDB)
  | err (msg : String)
  | fatal (stmt : TreeStmt)
deriving DecidableEq

/-- The rows a shard's `INSERT ... SELECT` copies out of `old.tree_1`:
the version-window filter, then one row per `(version, sequence)` key,
keeping the row with the smallest rowid (first physical occurrence). -/
def shardCopyRows (tree1 : List BranchRow) (shardID : Int) : List BranchRow :=
  dedupFirst (tree1.filter (rowInShard shardID))

/-- Shallow embedding of `migrateTree` (migrate_v2.go), with the oracle
deciding which SQL operation fails.  Mirrors the source's control flow:
create base tables, attach, count `tree_1` and `root`, early-return when both
are empty, copy `root` (when non-empty) and `branch_orphan`, then the
min/max version analysis, shard creation and the per-shard dedup copy. -/
def migrateTreeE (db : TreeDB) (o : TreeOracle) : TreeResult :=
  if o.openOldFails then .err "open old db" else
  if o.mkdirFails then .err "mkdir" else
  if o.openNewFails then .err "open new db" else
  if o.execFails .createBranchOrphan then .fatal .createBranchOrphan else
  if o.execFails .createRoot then .fatal .createRoot else
  if o.execFails .attachOld then .fatal .attachOld else
  if o.countTreeFails then .err "failed to count rows in tree_1" else
  if o.countRootFails then .err "failed to count rows in root" else
  let count := db.tree1.length
  let rootCount := db.root.length
  if count = 0 ∧ rootCount = 0 then
    if o.execFails .detachOld then .fatal .detachOld
    else .ok { root := [], branch_orphan := [], shards := [] }
  else
    if 0 < rootCount ∧ o.execFails .insertRoot then .fatal .insertRoot else
    let rootOut := if 0 < rootCount then db.root else []
    -- `INSERT INTO branch_orphan ... FROM old.orphan` fails when the source
    -- has no `orphan` table; `exec` makes any such failure fatal.
    if o.execFails .insertBranchOrphan || db.orphan.isNone then .fatal .insertBranchOrphan else
    let orphanOut := db.orphan.getD []
    if 0 < count then
      if o.minMaxFails then .err "failed to query version range from tree_1" else
      match minAgg (db.tree1.filterMap (·.version)),
            maxAgg (db.tree1.filterMap (·.version)) with
      | some mn, some mx =>
        let shardIDs := calculateShardRange mn mx
        match shardIDs.find? (fun sid => o.execFails (.createShard sid)) with
        | some sid => .fatal (.createShard sid)
        | none =>
          match shardIDs.find? (fun sid => o.execFails (.insertShard sid)) with
          | some sid => .fatal (.insertShard sid)
          | none =>
            if o.execFails .detachOld then .fatal .detachOld
            else .ok { root := rootOut, branch_orphan := orphanOut,
                       shards := shardIDs.map (fun sid => (sid, shardCopyRows db.tree1 sid)) }
      | _, _ =>
        -- `MIN`/`MAX` returned NULL: no valid version despite a positive
        -- row count; detach and return successfully with no shard tables.
        if o.execFails .detachOld then .fatal .detachOld
        else .ok { root := rootOut, branch_orphan := orphanOut, shards := [] }
    else
      if o.execFails .detachOld then .fatal .detachOld
      else .ok { root := rootOut, branch_orphan := orphanOut, shards := [] }

/-- The oracle of a run in which every SQL operation succeeds. -/
def treeAllOk : TreeOracle :=
  { openOldFails := false, mkdirFails := false, openNewFails := false,
    countTreeFails := false, countRootFails := false, minMaxFails := false,
    execFails := fun _ => false }

/-- Function `migrateTree` on a healthy environment: only the data decides the
outcome. -/
def migrateTree (db : TreeDB) : TreeResult :=
  migrateTreeE db treeAllOk
-- The changelog store migrator (`migrateChangelog`).

/-- A row of the source `leaf` table as read by
`SELECT version, sequence, key, bytes FROM leaf` (the source also carries an
`orphaned` column, which the query deliberately does not select). -/
structure OldLeafRow where
  version : Int
  sequence : Int
  key : List Nat
  bytes : List Nat
  orphaned : Bool
deriving DecidableEq

/-- A row of the target `leaf` table as written by
`INSERT INTO leaf(version, sequence, key_hash, bytes)`: there is no
`orphaned` value in the insert. -/
structure NewLeafRow where
  version : Int
  sequence : Int
  key_hash : List Nat
  bytes : List Nat
deriving DecidableEq

/-- A row of a `leaf_orphan` table. -/
structure LeafOrphanRow where
  version : Int
  sequence : Int
  at_ : Int
deriving DecidableEq

/-- The source changelog database (`changelog.sqlite`). -/
structure ChangelogDB where
  leaf : List OldLeafRow
  leaf_orphan : List LeafOrphanRow
deriving DecidableEq

/-- The destination changelog database. -/
structure NewChangelogDB where
  leaf : List NewLeafRow
  leaf_orphan : List LeafOrphanRow
deriving DecidableEq

/-- Error oracle for one `migrateChangelog` run, one flag per fallible
operation of the source, in execution order; `scanFails`/`insertFails` are
indexed by the 0-based position of the leaf row being processed.
`iterBreaks i` models a failure of the underlying row cursor before row `i`:
`rows.Next()` then returns `false` as if the rows were exhausted, and since
the source never calls `rows.Err()` afterwards, no step observes an error —
this is a distinct path from a `Scan` failure, which the source does check. -/
structure CLOracle where
  openOldFails : Bool
  mkdirFails : Bool
  openNewFails : Bool
  beginFails : Bool
  createLeafFails : Bool
  createLeafIdxFails : Bool
  createLeafOrphanFails : Bool
  readLeafFails : Bool
  prepareFails : Bool
  iterBreaks : Nat → Bool
  scanFails : Nat → Bool
  insertFails : Nat → Bool
  attachFails : Bool
  orphanCopyFails : Bool
  commitFails : Bool
  detachFails : Bool

/-- Observable outcome of one `migrateChangelog` run.  `committed` is what a
later reader of the destination file sees: `none` until the transaction
commits (an abandoned transaction is rolled back when the connection
closes), the full row set afterwards.  `detached` records whether
`DETACH DATABASE old` ran; `err` is the function's returned error. -/
structure CLOutcome where
  committed : Option NewChangelogDB
  detached : Bool
  err : Option String
deriving DecidableEq

/-- The re-keying of one source leaf row: same version, sequence and payload,
addressed by the hash of the original key; the source `orphaned` flag is not
carried over (the insert has no such column value). -/
def reKey (H : List Nat → List Nat) (r : OldLeafRow) : NewLeafRow :=
  { version := r.version, sequence := r.sequence, key_hash := H r.key, bytes := r.bytes }

/-- sqlite constraint check for the target `leaf` table: primary key
`(key_hash, version)` and the unique index `leaf_idx` on
`(version, sequence)`.  A new row conflicting with an already-inserted row
makes the `INSERT` fail. -/
def leafConflict (acc : List NewLeafRow) (r : NewLeafRow) : Bool :=
  acc.any (fun s =>
    (s.key_hash == r.key_hash && s.version == r.version) ||
    (s.version == r.version && s.sequence == r.sequence))

/-- The `rows.Next()` scan-hash-insert loop of `migrateChangelog`: scan each
source leaf row, hash its key, insert the re-keyed row.  Stops at the first
failing scan or insert with the error Go would return.  When the cursor
itself fails (`iterBreaks`), `rows.Next()` returns `false` and the loop ends
quietly with the rows read so far — the source has no `rows.Err()` check, so
this is indistinguishable from normal exhaustion and yields `.ok` on a
partial row set. -/
def insertLeafRows (H : List Nat → List Nat) (o : CLOracle) :
    Nat → List OldLeafRow → List NewLeafRow → Except String (List NewLeafRow)
  | _, [], acc => .ok acc
  | i, r :: rs, acc =>
    if o.iterBreaks i then .ok acc else
    if o.scanFails i then .error "scan old leaf row" else
    let nr := reKey H r
    if o.insertFails i || leafConflict acc nr then .error "insert leaf row"
    else insertLeafRows H o (i + 1) rs (acc ++ [nr])

/-- Shallow embedding of `migrateChangelog` (migrate_v2.go).  All destination
writes (the three `CREATE`s, the leaf inserts, the `leaf_orphan` copy) run on
the single transaction `tx`; only `Commit` publishes them, and
`DETACH DATABASE old` runs on `newDB` after a successful commit. -/
def migrateChangelogE (H : List Nat → List Nat) (db : ChangelogDB) (o : CLOracle) : CLOutcome :=
  if o.openOldFails then { committed := none, detached := false, err := some "open old changelog db" } else
  if o.mkdirFails then { committed := none, detached := false, err := some "mkdir" } else
  if o.openNewFails then { committed := none, detached := false, err := some "open new changelog db" } else
  if o.beginFails then { committed := none, detached := false, err := some "begin" } else
  if o.createLeafFails then { committed := none, detached := false, err := some "exec create leaf" } else
  if o.createLeafIdxFails then { committed := none, detached := false, err := some "exec create leaf_idx" } else
  if o.createLeafOrphanFails then { committed := none, detached := false, err := some "exec create leaf_orphan" } else
  if o.readLeafFails then { committed := none, detached := false, err := some "read old leaf" } else
  if o.prepareFails then { committed := none, detached := false, err := some "prepare insert" } else
  match insertLeafRows H o 0 db.leaf [] with
  | .error m => { committed := none, detached := false, err := some m }
  | .ok leafRows =>
    if o.attachFails then { committed := none, detached := false, err := some "failed to attach old database" } else
    if o.orphanCopyFails then { committed := none, detached := false, err := some "migrate leaf_orphan" } else
    if o.commitFails then { committed := none, detached := false, err := some "commit" } else
    if o.detachFails then
      { committed := some { leaf := leafRows, leaf_orphan := db.leaf_orphan },
        detached := false, err := some "failed to detach old database" }
    else
      { committed := some { leaf := leafRows, leaf_orphan := db.leaf_orphan },
        detached := true, err := none }

/-- The changelog oracle of a run in which every operation succeeds. -/
def clAllOk : CLOracle :=
  { openOldFails := false, mkdirFails := false, openNewFails := false,
    beginFails := false, createLeafFails := false, createLeafIdxFails := false,
    createLeafOrphanFails := false, readLeafFails := false, prepareFails := false,
    iterBreaks := fun _ => false,
    scanFails := fun _ => false, insertFails := fun _ => false,
    attachFails := false, orphanCopyFails := false, commitFails := false,
    detachFails := false }

/-- Function `migrateChangelog` on a healthy environment. -/
def migrateChangelog (H : List Nat → List Nat) (db : ChangelogDB) : CLOutcome :=
  migrateChangelogE H db clAllOk

-- The per-store orchestration (`migrateStore`).

/-- One store's on-disk state and environment behaviour for a
`migrateStore` run. -/
structure StoreEnv where
  treeFileExists : Bool
  changelogFileExists : Bool
  treeDB : TreeDB
  clDB : ChangelogDB
  treeOracle : TreeOracle
  clOracle : CLOracle

/-- Result of `migrateStore`: success, a returned error, or a process abort
inherited from the tree migrator's `exec`. -/
inductive StoreResult where
  | ok
  | err (msg : String)
  | fatal (stmt : TreeStmt)
deriving DecidableEq

/-- Shallow embedding of `migrateStore` (migrate_v2.go).  The second
component records whether the changelog migration was started.  Mirrors the
source order: stat the tree file, run `migrateTree`, then stat the changelog
file and run `migrateChangelog`. -/
def migrateStore (H : List Nat → List Nat) (store baseOld : String) (env : StoreEnv) :
    StoreResult × Bool :=
  let oldTreePath := baseOld ++ "/" ++ store ++ "/tree.sqlite"
  let oldChangelogPath := baseOld ++ "/" ++ store ++ "/changelog.sqlite"
  if env.treeFileExists then
    match migrateTreeE env.treeDB env.treeOracle with
    | .ok _ =>
      if env.changelogFileExists then
        match (migrateChangelogE H env.clDB env.clOracle).err with
        | some m => (.err m, true)
        | none => (.ok, true)
      else (.err ("changelog.sqlite not found: " ++ oldChangelogPath), false)
    | .err m => (.err m, false)
    | .fatal s => (.fatal s, false)
  else (.err ("tree.sqlite not found: " ++ oldTreePath), false)

/-- The target `leaf` table constraints, as a proposition: a primary-key
conflict on `(key_hash, version)` or a `leaf_idx` unique-index conflict on
`(version, sequence)`. -/
def LeafConflictP (a b : NewLeafRow) : Prop :=
  (a.key_hash = b.key_hash ∧ a.version = b.version) ∨
  (a.version = b.version ∧ a.sequence = b.sequence)

-- Concrete databases, oracles and environments used by witnesses and
-- counterexamples.

/-- A source tree database whose single branch row has the non-positive
version 0 (the degenerate/sentinel case). -/
def dbNonPosVersion : TreeDB :=
  { tree1 := [{ version := some 0, sequence := 1, bytes := [5], orphaned := false }],
    root := [], orphan := some [] }

/-- A source tree database with a duplicated `(version, sequence)` key at
the non-positive version 0 and two different payloads. -/
def dbDupNonPos : TreeDB :=
  { tree1 := [{ version := some 0, sequence := 1, bytes := [5], orphaned := false },
              { version := some 0, sequence := 1, bytes := [6], orphaned := false }],
    root := [], orphan := some [] }

/-- A source tree database spanning shards 1 and 2, with a duplicated
`(version, sequence)` key carrying two different payloads, a root row and an
orphan row. -/
def dbTwoShards : TreeDB :=
  { tree1 := [{ version := some 1, sequence := 1, bytes := [7], orphaned := false },
              { version := some 1, sequence := 1, bytes := [9], orphaned := true },
              { version := some 500001, sequence := 2, bytes := [3], orphaned := false }],
    root := [{ version := 500001, node_version := 500001, node_sequence := 2, bytes := [1] }],
    orphan := some [{ version := 1, sequence := 1, at_ := 2 }] }

/-- A source tree database with a positive row count but only NULL
versions. -/
def dbNullVersions : TreeDB :=
  { tree1 := [{ version := none, sequence := 1, bytes := [4], orphaned := false },
              { version := none, sequence := 2, bytes := [5], orphaned := true }],
    root := [{ version := 3, node_version := 3, node_sequence := 1, bytes := [2] }],
    orphan := some [] }

/-- A source tree database whose `orphan` table is absent. -/
def dbNoOrphanTable : TreeDB :=
  { tree1 := [{ version := some 1, sequence := 1, bytes := [], orphaned := false }],
    root := [], orphan := none }

/-- A minimal healthy source tree database (one branch row at version 1). -/
def dbSimple : TreeDB :=
  { tree1 := [{ version := some 1, sequence := 1, bytes := [8], orphaned := false }],
    root := [], orphan := some [] }

/-- A tree oracle in which the row-copy `INSERT ... SELECT` into `tree_1`
fails and everything else succeeds. -/
def oracleInsertShard1Fails : TreeOracle :=
  { treeAllOk with execFails := fun s => decide (s = TreeStmt.insertShard 1) }

/-- A tree oracle in which the `SELECT COUNT(*) FROM tree_1` query fails. -/
def oracleCountTreeFails : TreeOracle :=
  { treeAllOk with countTreeFails := true }

/-- A stand-in for the blake3 key hash: any concrete function works for
evaluating the model; this one collides on every input. -/
def constHash : List Nat → List Nat := fun _ => [0]

/-- A source changelog database with two leaf rows whose distinct keys
collide under `constHash` (at distinct versions) and whose `orphaned` flags
are set, plus one leaf-orphan row. -/
def clDbEx : ChangelogDB :=
  { leaf := [{ version := 1, sequence := 1, key := [10], bytes := [1], orphaned := true },
             { version := 2, sequence := 1, key := [20], bytes := [2], orphaned := true }],
    leaf_orphan := [{ version := 1, sequence := 1, at_ := 2 }] }

/-- A changelog oracle in which the underlying leaf-row cursor fails before
the second row (index 1): `rows.Next()` returns `false` there, and every
operation the source actually checks succeeds. -/
def oracleIterBreak1 : CLOracle :=
  { clAllOk with iterBreaks := fun i => decide (i = 1) }

/-- A store whose tree file exists but whose changelog file is missing, and
whose tree migration fails with a returned (query) error. -/
def envTreeErrNoChangelog : StoreEnv :=
  { treeFileExists := true, changelogFileExists := false,
    treeDB := dbSimple, clDB := clDbEx,
    treeOracle := oracleCountTreeFails, clOracle := clAllOk }

/-- A healthy store environment with both files present. -/
def envHealthy : StoreEnv :=
  { treeFileExists := true, changelogFileExists := true,
    treeDB := dbSimple, clDB := clDbEx,
    treeOracle := treeAllOk, clOracle := clAllOk }

-- Basic facts about the shard arithmetic and the aggregates.

theorem ToShardID_nonpos {v : Int} (h : v ≤ 0) : ToShardID v = 1 := by
  simp [ToShardID, h]

theorem ToShardID_pos {v : Int} (h : 1 ≤ v) : ToShardID v = (v - 1) / 500000 + 1 := by
  simp only [ToShardID]
  split
  · omega
  · rfl

theorem ToShardID_mono {v w : Int} (h1 : 1 ≤ v) (h2 : v ≤ w) :
    ToShardID v ≤ ToShardID w := by
  rw [ToShardID_pos h1, ToShardID_pos (le_trans h1 h2)]
  omega

theorem ToShardID_window {v : Int} (h : 1 ≤ v) :
    shardStartVersion (ToShardID v) ≤ v ∧ v ≤ shardEndVersion (ToShardID v) := by
  rw [ToShardID_pos h]
  unfold shardStartVersion shardEndVersion
  omega

theorem window_unique {s : Int} {v : Int}
    (hs : shardStartVersion s ≤ v ∧ v ≤ shardEndVersion s) (hv : 1 ≤ v) :
    s = ToShardID v := by
  rw [ToShardID_pos hv]
  unfold shardStartVersion shardEndVersion at hs
  omega

theorem mem_intRun (a : Int) (n : Nat) (k : Int) :
    k ∈ intRun a n ↔ a ≤ k ∧ k < a + n := by
  induction n generalizing a with
  | zero => simp [intRun]
  | succ m ih =>
    simp only [intRun, List.mem_cons, ih]
    omega

theorem pairwise_intRun (a : Int) (n : Nat) : (intRun a n).Pairwise (· < ·) := by
  induction n generalizing a with
  | zero => simp [intRun]
  | succ m ih =>
    refine List.Pairwise.cons (fun b hb => ?_) (ih (a + 1))
    rw [mem_intRun] at hb
    omega

theorem mem_calculateShardRange {mn mx : Int} (h1 : 1 ≤ mn) (h2 : 1 ≤ mx) :
    ∀ k : Int, k ∈ calculateShardRange mn mx ↔ ToShardID mn ≤ k ∧ k ≤ ToShardID mx := by
  intro k
  unfold calculateShardRange
  have hmn : ¬ (mn ≤ 0 ∨ mx ≤ 0) := by omega
  simp only [hmn, if_false, mem_intRun]
  omega

theorem pairwise_calculateShardRange (mn mx : Int) :
    (calculateShardRange mn mx).Pairwise (· < ·) := by
  unfold calculateShardRange
  split
  · simp
  · exact pairwise_intRun _ _

theorem minAgg_eq_none {l : List Int} : minAgg l = none ↔ l = [] := by
  cases l with
  | nil => simp [minAgg]
  | cons v vs => simp only [minAgg]; cases minAgg vs <;> simp

theorem maxAgg_eq_none {l : List Int} : maxAgg l = none ↔ l = [] := by
  cases l with
  | nil => simp [maxAgg]
  | cons v vs => simp only [maxAgg]; cases maxAgg vs <;> simp

theorem minAgg_spec {l : List Int} {m : Int} (h : minAgg l = some m) :
    m ∈ l ∧ ∀ x ∈ l, m ≤ x := by
  induction l generalizing m with
  | nil => simp [minAgg] at h
  | cons v vs ih =>
    simp only [minAgg] at h
    cases hm : minAgg vs with
    | none =>
      rw [hm, Option.some_inj] at h
      subst h
      rw [minAgg_eq_none.mp hm]
      simp
    | some m' =>
      rw [hm, Option.some_inj] at h
      subst h
      obtain ⟨h1, h2⟩ := ih hm
      by_cases hle : v ≤ m'
      · rw [if_pos hle]
        refine ⟨List.mem_cons_self _ _, fun x hx => ?_⟩
        rcases List.mem_cons.mp hx with heq | hx
        · omega
        · have := h2 x hx; omega
      · rw [if_neg hle]
        refine ⟨List.mem_cons_of_mem _ h1, fun x hx => ?_⟩
        rcases List.mem_cons.mp hx with heq | hx
        · omega
        · exact h2 x hx

theorem maxAgg_spec {l : List Int} {m : Int} (h : maxAgg l = some m) :
    m ∈ l ∧ ∀ x ∈ l, x ≤ m := by
  induction l generalizing m with
  | nil => simp [maxAgg] at h
  | cons v vs ih =>
    simp only [maxAgg] at h
    cases hm : maxAgg vs with
    | none =>
      rw [hm, Option.some_inj] at h
      subst h
      rw [maxAgg_eq_none.mp hm]
      simp
    | some m' =>
      rw [hm, Option.some_inj] at h
      subst h
      obtain ⟨h1, h2⟩ := ih hm
      by_cases hle : v ≤ m'
      · rw [if_pos hle]
        refine ⟨List.mem_cons_of_mem _ h1, fun x hx => ?_⟩
        rcases List.mem_cons.mp hx with heq | hx
        · omega
        · exact h2 x hx
      · rw [if_neg hle]
        refine ⟨List.mem_cons_self _ _, fun x hx => ?_⟩
        rcases List.mem_cons.mp hx with heq | hx
        · omega
        · have := h2 x hx; omega

-- Deduplication lemmas.

theorem sameKey_iff (a b : BranchRow) :
    sameKey a b = true ↔ a.version = b.version ∧ a.sequence = b.sequence := by
  simp [sameKey]

theorem sameKey_refl (a : BranchRow) : sameKey a a = true := by
  simp [sameKey_iff]

theorem sameKey_symm {a b : BranchRow} (h : sameKey a b = true) : sameKey b a = true := by
  rw [sameKey_iff] at h ⊢
  exact ⟨h.1.symm, h.2.symm⟩

theorem sameKey_trans {a b c : BranchRow} (h1 : sameKey a b = true)
    (h2 : sameKey b c = true) : sameKey a c = true := by
  rw [sameKey_iff] at h1 h2 ⊢
  exact ⟨h1.1.trans h2.1, h1.2.trans h2.2⟩

theorem dedupFirst_subset {r : BranchRow} {l : List BranchRow}
    (h : r ∈ dedupFirst l) : r ∈ l := by
  induction l with
  | nil => simp [dedupFirst] at h
  | cons x xs ih =>
    simp only [dedupFirst, List.mem_cons] at h
    rcases h with rfl | h
    · exact List.mem_cons_self _ _
    · exact List.mem_cons_of_mem _ (ih (List.mem_of_mem_filter h))

theorem dedupFirst_exists_key {r : BranchRow} {l : List BranchRow} (h : r ∈ l) :
    ∃ r0 ∈ dedupFirst l, sameKey r0 r = true := by
  induction l with
  | nil => simp at h
  | cons x xs ih =>
    rcases List.mem_cons.mp h with heq | h
    · refine ⟨x, List.mem_cons_self _ _, ?_⟩
      rw [heq]
      exact sameKey_refl x
    · obtain ⟨r0, hr0, hk⟩ := ih h
      by_cases hx : sameKey r0 x = true
      · exact ⟨x, List.mem_cons_self _ _, sameKey_trans (sameKey_symm hx) hk⟩
      · refine ⟨r0, ?_, hk⟩
        simp only [dedupFirst, List.mem_cons]
        right
        rw [List.mem_filter]
        exact ⟨hr0, by simp [hx]⟩

/-- Predicates that depend only on the `(version, sequence)` key (such as a
shard's version-window test) commute with first-occurrence deduplication. -/
theorem dedupFirst_filter (p : BranchRow → Bool)
    (hp : ∀ a b, sameKey a b = true → p a = p b) :
    ∀ l : List BranchRow, dedupFirst (l.filter p) = (dedupFirst l).filter p := by
  intro l
  induction l with
  | nil => simp [dedupFirst]
  | cons x xs ih =>
    by_cases hx : p x = true
    · rw [List.filter_cons_of_pos hx]
      simp only [dedupFirst]
      rw [List.filter_cons_of_pos hx, ih]
      rw [List.filter_filter, List.filter_filter]
      refine congrArg (List.cons x) ?_
      apply List.filter_congr
      intro s _
      exact Bool.and_comm _ _
    · rw [List.filter_cons_of_neg hx]
      simp only [dedupFirst]
      rw [List.filter_cons_of_neg hx, ih, List.filter_filter]
      apply List.filter_congr
      intro s _
      by_cases hs : p s = true
      · have : sameKey s x ≠ true := fun hk => hx ((hp s x hk) ▸ hs)
        simp [hs, this]
      · simp [Bool.eq_false_iff.mpr hs]

theorem dedupFirst_key_unique :
    ∀ l : List BranchRow, (dedupFirst l).Pairwise (fun a b => sameKey a b = false) := by
  intro l
  induction l with
  | nil => simp [dedupFirst]
  | cons x xs ih =>
    simp only [dedupFirst]
    refine List.Pairwise.cons (fun b hb => ?_) (List.Pairwise.sublist (List.filter_sublist _) ih)
    rw [List.mem_filter] at hb
    have := hb.2
    simp only [Bool.not_eq_true'] at this
    cases hk : sameKey x b
    · rfl
    · exact absurd (sameKey_symm hk) (by simp [this])

/-- In the deduplicated list, the rows carrying the key of `r` are exactly the
one first physical occurrence of that key (`List.find?`). -/
theorem dedupFirst_filter_key {r : BranchRow} {l : List BranchRow} (h : r ∈ l) :
    ∃ f, l.find? (fun s => sameKey s r) = some f ∧
      (dedupFirst l).filter (fun s => sameKey s r) = [f] := by
  induction l with
  | nil => simp at h
  | cons x xs ih =>
    by_cases hx : sameKey x r = true
    · refine ⟨x, ?_, ?_⟩
      · rw [@List.find?_cons_of_pos _ (fun s => sameKey s r) x xs hx]
      · simp only [dedupFirst]
        rw [@List.filter_cons_of_pos _ (fun s => sameKey s r) x _ hx, List.filter_filter]
        have : ∀ s ∈ dedupFirst xs, (sameKey s r && !(sameKey s x)) = false := by
          intro s _
          by_cases hs : sameKey s r = true
          · have : sameKey s x = true := sameKey_trans hs (sameKey_symm hx)
            simp [this]
          · simp [Bool.eq_false_iff.mpr hs]
        rw [List.filter_eq_nil_iff.mpr (by intro a ha; simp [this a ha])]
    · have hr : r ∈ xs := by
        rcases List.mem_cons.mp h with rfl | h
        · exact absurd (sameKey_refl r) (by simpa using hx)
        · exact h
      obtain ⟨f, hf1, hf2⟩ := ih hr
      refine ⟨f, ?_, ?_⟩
      · rw [List.find?_cons_of_neg _ (by simpa using hx), hf1]
      · simp only [dedupFirst]
        rw [List.filter_cons_of_neg (by simpa using hx), List.filter_filter]
        rw [← hf2]
        apply List.filter_congr
        intro s _
        by_cases hs : sameKey s r = true
        · have : sameKey s x ≠ true := by
            intro hk
            exact hx (sameKey_trans (sameKey_symm hk) hs)
          simp [hs, this]
        · simp [Bool.eq_false_iff.mpr hs]


-- Claim C2: `ToShardID` total function specification.

/-- C2: for every 64-bit integer version `v`, `ToShardID` is total (it is a
plain function), returns 1 when `v ≤ 0` and `floor((v-1)/500000) + 1` when
`v ≥ 1` (`Int.fdiv` is the mathematical floor division), with the listed
concrete values. -/
theorem claimC2_toShardID_spec :
    (∀ v : Int, ToShardID v = if v ≤ 0 then 1 else (v - 1).fdiv 500000 + 1) ∧
    ToShardID 1 = 1 ∧ ToShardID 500000 = 1 ∧ ToShardID 500001 = 2 ∧
    ToShardID 1000000 = 2 ∧ ToShardID 1000001 = 3 ∧ ToShardID 4312305 = 9 := by
  refine ⟨fun v => ?_, by decide, by decide, by decide, by decide, by decide, by decide⟩
  by_cases h : v ≤ 0
  · rw [if_pos h, ToShardID_nonpos h]
  · rw [if_neg h, ToShardID_pos (by omega), Int.fdiv_eq_ediv _ (by norm_num)]

-- Claim C3: `calculateShardRange` specification.

/-- C3: if either bound is non-positive, `calculateShardRange` returns
exactly `[1]`; for positive `minVersion ≤ maxVersion` it returns every
integer from `ToShardID minVersion` to `ToShardID maxVersion`, ascending,
without gaps or duplicates; and for positive reversed bounds it returns the
empty sequence or the single bound's shard (it cannot panic: it is a total
function). -/
theorem claimC3_calculateShardRange_spec (mn mx : Int) :
    ((mn ≤ 0 ∨ mx ≤ 0) → calculateShardRange mn mx = [1]) ∧
    (1 ≤ mn → mn ≤ mx →
      (∀ k : Int, k ∈ calculateShardRange mn mx ↔ ToShardID mn ≤ k ∧ k ≤ ToShardID mx) ∧
      (calculateShardRange mn mx).Pairwise (· < ·)) ∧
    (1 ≤ mx → mx < mn →
      calculateShardRange mn mx = [] ∨ calculateShardRange mn mx = [ToShardID mn]) := by
  refine ⟨fun h => by simp [calculateShardRange, h], ?_, ?_⟩
  · intro h1 h2
    exact ⟨mem_calculateShardRange h1 (by omega), pairwise_calculateShardRange mn mx⟩
  · intro hmx hlt
    have hmn : 1 ≤ mn := by omega
    have hmono : ToShardID mx ≤ ToShardID mn := ToShardID_mono hmx (by omega)
    unfold calculateShardRange
    have hcond : ¬ (mn ≤ 0 ∨ mx ≤ 0) := by omega
    rw [if_neg hcond]
    rcases lt_or_eq_of_le hmono with hl | he
    · left
      show intRun (ToShardID mn) (ToShardID mx - ToShardID mn + 1).toNat = []
      have h0 : (ToShardID mx - ToShardID mn + 1).toNat = 0 := by omega
      rw [h0]
      rfl
    · right
      show intRun (ToShardID mn) (ToShardID mx - ToShardID mn + 1).toNat = [ToShardID mn]
      have h1 : (ToShardID mx - ToShardID mn + 1).toNat = 1 := by omega
      rw [h1]
      rfl

/-- Witness for C3 at concrete inputs. -/
theorem claimC3_witness :
    calculateShardRange 0 0 = [1] ∧
    (9 : Int) ∈ calculateShardRange 1 4312305 ∧
    (calculateShardRange 5 3 = [] ∨ calculateShardRange 5 3 = [ToShardID 5]) := by
  refine ⟨(claimC3_calculateShardRange_spec 0 0).1 (Or.inl le_rfl), ?_, ?_⟩
  · exact (((claimC3_calculateShardRange_spec 1 4312305).2.1 (by norm_num)
      (by norm_num)).1 9).mpr (by decide)
  · exact (claimC3_calculateShardRange_spec 5 3).2.2 (by norm_num) (by norm_num)

-- Claim C10: every positive version lies in its own shard's copy window,
-- and windows of distinct shards are disjoint.

/-- C10: for `v ≥ 1`, `v` lies inside the copy window
`[(ToShardID v - 1)*500000 + 1, ToShardID v * 500000]` of its own shard; the
windows of distinct shard identifiers are disjoint; hence a branch row with
version `v` satisfies the `WHERE` predicate of exactly one shard's
`INSERT ... SELECT`. -/
theorem claimC10_shard_window_partition (v : Int) (hv : 1 ≤ v) :
    (shardStartVersion (ToShardID v) ≤ v ∧ v ≤ shardEndVersion (ToShardID v)) ∧
    (∀ s1 s2 w : Int, s1 ≠ s2 →
      ¬((shardStartVersion s1 ≤ w ∧ w ≤ shardEndVersion s1) ∧
        (shardStartVersion s2 ≤ w ∧ w ≤ shardEndVersion s2))) ∧
    (∀ r : BranchRow, r.version = some v →
      ∃! sid : Int, rowInShard sid r = true) := by
  refine ⟨ToShardID_window hv, ?_, ?_⟩
  · intro s1 s2 w hne
    unfold shardStartVersion shardEndVersion
    rintro ⟨⟨h1, h2⟩, h3, h4⟩
    rcases lt_or_gt_of_ne hne with h | h <;> nlinarith
  · intro r hr
    refine ⟨ToShardID v, ?_, ?_⟩
    · simp only [rowInShard, hr, Bool.and_eq_true, decide_eq_true_eq]
      exact ToShardID_window hv
    · intro sid hsid
      simp only [rowInShard, hr, Bool.and_eq_true, decide_eq_true_eq] at hsid
      exact window_unique hsid hv

/-- Witness for C10 at `v = 500001` (shard 2). -/
theorem claimC10_witness :
    shardStartVersion (ToShardID 500001) ≤ 500001 ∧
    (500001 : Int) ≤ shardEndVersion (ToShardID 500001) :=
  (claimC10_shard_window_partition 500001 (by norm_num)).1

-- Running `migrateTree` on a healthy environment.

theorem rowInShard_respects (sid : Int) (a b : BranchRow) (h : sameKey a b = true) :
    rowInShard sid a = rowInShard sid b := by
  rw [sameKey_iff] at h
  unfold rowInShard
  rw [h.1]

theorem shardCopyRows_eq_filter_dedup (tree1 : List BranchRow) (sid : Int) :
    shardCopyRows tree1 sid = (dedupFirst tree1).filter (rowInShard sid) :=
  dedupFirst_filter (rowInShard sid) (rowInShard_respects sid) tree1

theorem rootCopy_eq (l : List RootRow) : (if 0 < l.length then l else []) = l := by
  cases l <;> simp

theorem find?_const_false {α : Type} (l : List α) :
    l.find? (fun _ => false) = none := by
  induction l with
  | nil => rfl
  | cons x xs ih => rw [List.find?_cons_of_neg _ (by simp), ih]

/-- Evaluating `migrateTree` down its successful branch-data path: nonempty
`tree_1`, an `orphan` table present, and a non-null version range. -/
theorem migrateTree_run (db : TreeDB) (os : List OrphanRow)
    (horph : db.orphan = some os) (hne : db.tree1 ≠ [])
    {mn mx : Int}
    (hmn : minAgg (db.tree1.filterMap (·.version)) = some mn)
    (hmx : maxAgg (db.tree1.filterMap (·.version)) = some mx) :
    migrateTree db = .ok
      { root := db.root, branch_orphan := os,
        shards := (calculateShardRange mn mx).map
          (fun sid => (sid, shardCopyRows db.tree1 sid)) } := by
  unfold migrateTree migrateTreeE
  simp only [treeAllOk, Bool.false_eq_true, if_false, Bool.or_self, horph, Option.isNone_some,
    List.length_eq_zero, hne, false_and, and_false, hmn, hmx, Option.getD_some,
    find?_const_false, List.length_pos, ne_eq, not_false_eq_true, if_true, rootCopy_eq]
  by_cases hr : db.root = [] <;> simp [hr]

-- Claim C1 (corrected): the sharded copy misses rows with non-positive
-- versions.

/-- C1 counterexample: on a source whose only branch row has version 0, the
shard copy's `WHERE version >= 1 AND version <= 500000` predicate matches
nothing, so the single created shard table is empty: the union of the shard
tables does not equal the deduplicated source row set, and the non-positive
row appears in no shard table. -/
theorem claimC1_counterexample :
    dbNonPosVersion.tree1 =
      [{ version := some 0, sequence := 1, bytes := [5], orphaned := false }] ∧
    migrateTree dbNonPosVersion =
      .ok { root := [], branch_orphan := [], shards := [(1, [])] } :=
  ⟨rfl, by decide⟩

/-- C1 (amended): for every source tree database whose branch table is
nonempty, whose orphan table exists, and all of whose branch rows carry
non-null positive versions, `migrateTree` succeeds; the destination's root
and branch-orphan tables are copied verbatim, the union of the shard tables'
rows equals the deduplicated row set of the source branch table, and every
source branch row's key appears in exactly one shard table. -/
theorem claimC1_amended (db : TreeDB) (os : List OrphanRow)
    (horph : db.orphan = some os) (hne : db.tree1 ≠ [])
    (hpos : ∀ r ∈ db.tree1, ∃ v, r.version = some v ∧ 1 ≤ v) :
    ∃ dest, migrateTree db = .ok dest ∧
      dest.root = db.root ∧
      dest.branch_orphan = os ∧
      (∀ r, (∃ p ∈ dest.shards, r ∈ p.2) ↔ r ∈ dedupFirst db.tree1) ∧
      (∀ r ∈ db.tree1, ∃! p, p ∈ dest.shards ∧ ∃ r2 ∈ p.2, sameKey r2 r = true) := by
  have hmem_vs : ∀ v : Int, v ∈ db.tree1.filterMap (·.version) ↔
      ∃ r ∈ db.tree1, r.version = some v := by
    intro v
    simp [List.mem_filterMap]
  have hvs_ne : db.tree1.filterMap (·.version) ≠ [] := by
    obtain ⟨r, hr⟩ := List.exists_mem_of_ne_nil db.tree1 hne
    obtain ⟨v, hv, _⟩ := hpos r hr
    intro h0
    have hin : v ∈ db.tree1.filterMap (·.version) := (hmem_vs v).mpr ⟨r, hr, hv⟩
    rw [h0] at hin
    simp at hin
  obtain ⟨mn, hmn⟩ : ∃ mn, minAgg (db.tree1.filterMap (·.version)) = some mn := by
    cases h : minAgg (db.tree1.filterMap (·.version)) with
    | none => exact absurd (minAgg_eq_none.mp h) hvs_ne
    | some m => exact ⟨m, rfl⟩
  obtain ⟨mx, hmx⟩ : ∃ mx, maxAgg (db.tree1.filterMap (·.version)) = some mx := by
    cases h : maxAgg (db.tree1.filterMap (·.version)) with
    | none => exact absurd (maxAgg_eq_none.mp h) hvs_ne
    | some m => exact ⟨m, rfl⟩
  obtain ⟨hmn_mem, hmn_le⟩ := minAgg_spec hmn
  obtain ⟨hmx_mem, hmx_ge⟩ := maxAgg_spec hmx
  have hver_pos : ∀ v ∈ db.tree1.filterMap (·.version), 1 ≤ v := by
    intro v hv
    obtain ⟨r, hr, hrv⟩ := (hmem_vs v).mp hv
    obtain ⟨w, hw, hw1⟩ := hpos r hr
    rw [hrv, Option.some_inj] at hw
    omega
  have hmn1 : 1 ≤ mn := hver_pos mn hmn_mem
  have hmx1 : 1 ≤ mx := hver_pos mx hmx_mem
  have hsid_of_v : ∀ v : Int, v ∈ db.tree1.filterMap (·.version) →
      ToShardID v ∈ calculateShardRange mn mx := by
    intro v hv
    exact (mem_calculateShardRange hmn1 hmx1 _).mpr
      ⟨ToShardID_mono hmn1 (hmn_le v hv), ToShardID_mono (hver_pos v hv) (hmx_ge v hv)⟩
  refine ⟨_, migrateTree_run db os horph hne hmn hmx, rfl, rfl, ?_, ?_⟩
  · intro r
    constructor
    · rintro ⟨p, hp, hrp⟩
      obtain ⟨sid, _, rfl⟩ := List.mem_map.mp hp
      have hrp' : r ∈ (dedupFirst db.tree1).filter (rowInShard sid) := by
        rw [← shardCopyRows_eq_filter_dedup]
        exact hrp
      exact List.mem_of_mem_filter hrp'
    · intro hr
      have hr1 : r ∈ db.tree1 := dedupFirst_subset hr
      obtain ⟨v, hv, hv1⟩ := hpos r hr1
      have hvvs : v ∈ db.tree1.filterMap (·.version) := (hmem_vs v).mpr ⟨r, hr1, hv⟩
      refine ⟨(ToShardID v, shardCopyRows db.tree1 (ToShardID v)),
        List.mem_map.mpr ⟨ToShardID v, hsid_of_v v hvvs, rfl⟩, ?_⟩
      show r ∈ shardCopyRows db.tree1 (ToShardID v)
      rw [shardCopyRows_eq_filter_dedup, List.mem_filter]
      refine ⟨hr, ?_⟩
      simp only [rowInShard, hv, Bool.and_eq_true, decide_eq_true_eq]
      exact ToShardID_window hv1
  · intro r hr
    obtain ⟨v, hv, hv1⟩ := hpos r hr
    obtain ⟨r0, hr0, hk0⟩ := dedupFirst_exists_key hr
    have hr0v : r0.version = some v := by
      rw [((sameKey_iff r0 r).mp hk0).1, hv]
    have hvvs : v ∈ db.tree1.filterMap (·.version) := (hmem_vs v).mpr ⟨r, hr, hv⟩
    refine ⟨(ToShardID v, shardCopyRows db.tree1 (ToShardID v)),
      ⟨List.mem_map.mpr ⟨ToShardID v, hsid_of_v v hvvs, rfl⟩, r0, ?_, hk0⟩, ?_⟩
    · show r0 ∈ shardCopyRows db.tree1 (ToShardID v)
      rw [shardCopyRows_eq_filter_dedup, List.mem_filter]
      refine ⟨hr0, ?_⟩
      simp only [rowInShard, hr0v, Bool.and_eq_true, decide_eq_true_eq]
      exact ToShardID_window hv1
    · rintro q ⟨hq, r2, hr2, hk2⟩
      obtain ⟨sid', _, rfl⟩ := List.mem_map.mp hq
      have hr2' : r2 ∈ (dedupFirst db.tree1).filter (rowInShard sid') := by
        rw [← shardCopyRows_eq_filter_dedup]
        exact hr2
      have hr2w := (List.mem_filter.mp hr2').2
      have hr2v : r2.version = some v := by
        rw [((sameKey_iff r2 r).mp hk2).1, hv]
      have hsid' : sid' = ToShardID v := by
        simp only [rowInShard, hr2v, Bool.and_eq_true, decide_eq_true_eq] at hr2w
        exact window_unique hr2w hv1
      rw [hsid']

/-- Witness for the amended C1 on the concrete two-shard database with a
duplicated key. -/
theorem claimC1_witness :
    ∃ dest, migrateTree dbTwoShards = .ok dest ∧
      dest.root = dbTwoShards.root ∧
      dest.branch_orphan = [{ version := 1, sequence := 1, at_ := 2 }] ∧
      (∀ r, (∃ p ∈ dest.shards, r ∈ p.2) ↔ r ∈ dedupFirst dbTwoShards.tree1) ∧
      (∀ r ∈ dbTwoShards.tree1, ∃! p, p ∈ dest.shards ∧ ∃ r2 ∈ p.2, sameKey r2 r = true) :=
  claimC1_amended dbTwoShards [{ version := 1, sequence := 1, at_ := 2 }] rfl
    (by decide)
    (by
      intro r hr
      simp only [dbTwoShards, List.mem_cons, List.not_mem_nil, or_false] at hr
      rcases hr with rfl | rfl | rfl
      · exact ⟨1, rfl, by norm_num⟩
      · exact ⟨1, rfl, by norm_num⟩
      · exact ⟨500001, rfl, by norm_num⟩)

-- Claim C4 (corrected): deduplication keeps the first physical occurrence,
-- but only for rows whose version lands in a created shard.

/-- Context of a `migrateTree` run over all-positive versions: the min/max
aggregates exist, the run succeeds with the sharded copy, and every row's
shard is in the computed range. -/
theorem migrateTree_pos_context (db : TreeDB) (os : List OrphanRow)
    (horph : db.orphan = some os) (hne : db.tree1 ≠ [])
    (hpos : ∀ r ∈ db.tree1, ∃ v, r.version = some v ∧ 1 ≤ v) :
    ∃ mn mx,
      migrateTree db = .ok
        { root := db.root, branch_orphan := os,
          shards := (calculateShardRange mn mx).map
            (fun sid => (sid, shardCopyRows db.tree1 sid)) } ∧
      ∀ r ∈ db.tree1, ∀ v : Int, r.version = some v →
        ToShardID v ∈ calculateShardRange mn mx := by
  have hmem_vs : ∀ v : Int, v ∈ db.tree1.filterMap (·.version) ↔
      ∃ r ∈ db.tree1, r.version = some v := by
    intro v
    simp [List.mem_filterMap]
  have hvs_ne : db.tree1.filterMap (·.version) ≠ [] := by
    obtain ⟨r, hr⟩ := List.exists_mem_of_ne_nil db.tree1 hne
    obtain ⟨v, hv, _⟩ := hpos r hr
    intro h0
    have hin : v ∈ db.tree1.filterMap (·.version) := (hmem_vs v).mpr ⟨r, hr, hv⟩
    rw [h0] at hin
    simp at hin
  obtain ⟨mn, hmn⟩ : ∃ mn, minAgg (db.tree1.filterMap (·.version)) = some mn := by
    cases h : minAgg (db.tree1.filterMap (·.version)) with
    | none => exact absurd (minAgg_eq_none.mp h) hvs_ne
    | some m => exact ⟨m, rfl⟩
  obtain ⟨mx, hmx⟩ : ∃ mx, maxAgg (db.tree1.filterMap (·.version)) = some mx := by
    cases h : maxAgg (db.tree1.filterMap (·.version)) with
    | none => exact absurd (maxAgg_eq_none.mp h) hvs_ne
    | some m => exact ⟨m, rfl⟩
  obtain ⟨hmn_mem, hmn_le⟩ := minAgg_spec hmn
  obtain ⟨hmx_mem, hmx_ge⟩ := maxAgg_spec hmx
  have hver_pos : ∀ v ∈ db.tree1.filterMap (·.version), 1 ≤ v := by
    intro v hv
    obtain ⟨r, hr, hrv⟩ := (hmem_vs v).mp hv
    obtain ⟨w, hw, hw1⟩ := hpos r hr
    rw [hrv, Option.some_inj] at hw
    omega
  refine ⟨mn, mx, migrateTree_run db os horph hne hmn hmx, ?_⟩
  intro r hr v hv
  have hvvs : v ∈ db.tree1.filterMap (·.version) := (hmem_vs v).mpr ⟨r, hr, hv⟩
  exact (mem_calculateShardRange (hver_pos mn hmn_mem) (hver_pos mx hmx_mem) _).mpr
    ⟨ToShardID_mono (hver_pos mn hmn_mem) (hmn_le v hvvs),
     ToShardID_mono (hver_pos v hvvs) (hmx_ge v hvvs)⟩

/-- C4 counterexample: a source branch table holding two rows with the same
`(version, sequence)` key (version 0) and different payloads yields zero rows
for that key in the target — the single created shard table is empty — not
exactly one row. -/
theorem claimC4_counterexample :
    dbDupNonPos.tree1.length = 2 ∧
    (dbDupNonPos.tree1.get? 0).map (·.version) = some (some 0) ∧
    migrateTree dbDupNonPos =
      .ok { root := [], branch_orphan := [], shards := [(1, [])] } :=
  ⟨rfl, rfl, by decide⟩

/-- C4 (amended): over a source branch table all of whose rows carry
non-null positive versions, for every source row the migration writes
exactly one row with that row's `(version, sequence)` key into that key's
shard table, no row with that key into any other shard table, and the kept
row is the first physical occurrence of the key (so one of the source rows,
never a merge). -/
theorem claimC4_amended (db : TreeDB) (os : List OrphanRow)
    (horph : db.orphan = some os) (hne : db.tree1 ≠ [])
    (hpos : ∀ r ∈ db.tree1, ∃ v, r.version = some v ∧ 1 ≤ v)
    (r : BranchRow) (hr : r ∈ db.tree1) :
    ∃ dest f, migrateTree db = .ok dest ∧
      db.tree1.find? (fun s => sameKey s r) = some f ∧ f ∈ db.tree1 ∧
      ∃ p ∈ dest.shards, p.2.filter (fun s => sameKey s r) = [f] ∧
        ∀ q ∈ dest.shards, q ≠ p → q.2.filter (fun s => sameKey s r) = [] := by
  obtain ⟨mn, mx, hrun, hcover⟩ := migrateTree_pos_context db os horph hne hpos
  obtain ⟨v, hv, hv1⟩ := hpos r hr
  obtain ⟨f, hfind, hfilter⟩ := dedupFirst_filter_key hr
  have hf_mem : f ∈ db.tree1 := List.mem_of_find?_eq_some hfind
  have hfk : sameKey f r = true :=
    @List.find?_some _ (fun s => sameKey s r) f db.tree1 hfind
  refine ⟨_, f, hrun, hfind, hf_mem,
    (ToShardID v, shardCopyRows db.tree1 (ToShardID v)),
    List.mem_map.mpr ⟨ToShardID v, hcover r hr v hv, rfl⟩, ?_, ?_⟩
  · show (shardCopyRows db.tree1 (ToShardID v)).filter (fun s => sameKey s r) = [f]
    rw [shardCopyRows_eq_filter_dedup, List.filter_comm]
    have hinside : (dedupFirst db.tree1).filter (fun s => sameKey s r) = [f] := hfilter
    rw [hinside]
    have hfv : f.version = some v := by
      rw [((sameKey_iff f r).mp hfk).1, hv]
    have : rowInShard (ToShardID v) f = true := by
      simp only [rowInShard, hfv, Bool.and_eq_true, decide_eq_true_eq]
      exact ToShardID_window hv1
    rw [List.filter_cons_of_pos this]
    rfl
  · rintro q hq hqne
    obtain ⟨sid', _, rfl⟩ := List.mem_map.mp hq
    show (shardCopyRows db.tree1 sid').filter (fun s => sameKey s r) = []
    rw [shardCopyRows_eq_filter_dedup, List.filter_filter]
    apply List.filter_eq_nil_iff.mpr
    intro a _
    intro hcontra
    rw [Bool.and_eq_true] at hcontra
    have hk := hcontra.1
    have hw := hcontra.2
    have hav : a.version = some v := by
      rw [((sameKey_iff a r).mp hk).1, hv]
    simp only [rowInShard, hav, Bool.and_eq_true, decide_eq_true_eq] at hw
    have hsid' : sid' = ToShardID v := window_unique hw hv1
    exact hqne (by rw [hsid'])

/-- Witness for the amended C4 on the two-shard database: the duplicated key
`(1, 1)` keeps its first physical occurrence (payload `[7]`). -/
theorem claimC4_witness :
    ∃ dest f,
      migrateTree dbTwoShards = .ok dest ∧
      dbTwoShards.tree1.find? (fun s =>
        sameKey s { version := some 1, sequence := 1, bytes := [9], orphaned := true }) = some f ∧
      f ∈ dbTwoShards.tree1 ∧
      ∃ p ∈ dest.shards,
        p.2.filter (fun s =>
          sameKey s { version := some 1, sequence := 1, bytes := [9], orphaned := true }) = [f] ∧
        ∀ q ∈ dest.shards, q ≠ p →
          q.2.filter (fun s =>
            sameKey s { version := some 1, sequence := 1, bytes := [9], orphaned := true }) = [] :=
  claimC4_amended dbTwoShards [{ version := 1, sequence := 1, at_ := 2 }] rfl
    (by decide)
    (by
      intro r hr
      simp only [dbTwoShards, List.mem_cons, List.not_mem_nil, or_false] at hr
      rcases hr with rfl | rfl | rfl
      · exact ⟨1, rfl, by norm_num⟩
      · exact ⟨1, rfl, by norm_num⟩
      · exact ⟨500001, rfl, by norm_num⟩)
    { version := some 1, sequence := 1, bytes := [9], orphaned := true }
    (by decide)

-- Claim C7 (corrected): "no valid version" is a success, but an absent
-- source orphan table is process-fatal, not a tolerated edge case.

/-- C7 counterexample: on a source whose `orphan` table is absent, the
branch-orphan copy `INSERT ... SELECT ... FROM old.orphan` fails, and since
it runs through `exec` the whole process is aborted (`log.Fatalf`) — the
step is not treated as "zero rows copied is success". -/
theorem claimC7_counterexample :
    dbNoOrphanTable.orphan = none ∧
    migrateTree dbNoOrphanTable = .fatal .insertBranchOrphan :=
  ⟨rfl, by decide⟩

/-- C7 (amended): when the branch row count is positive but no row has a
non-null version, `migrateTree` returns successfully with zero shard tables,
the root table copied and the branch-orphan rows copied (zero orphan rows
being a success); but this requires the source `orphan` table to exist — an
absent orphan table aborts the process — and the orphan copy is skipped
entirely when both `tree_1` and `root` are empty. -/
theorem claimC7_amended (db : TreeDB) (os : List OrphanRow)
    (horph : db.orphan = some os) (hne : db.tree1 ≠ [])
    (hnull : db.tree1.filterMap (·.version) = []) :
    migrateTree db = .ok { root := db.root, branch_orphan := os, shards := [] } := by
  unfold migrateTree migrateTreeE
  simp only [treeAllOk, Bool.false_eq_true, if_false, horph, Option.isNone_some,
    List.length_eq_zero, hne, false_and, and_false, Bool.or_self, hnull, minAgg, maxAgg,
    Option.getD_some, List.length_pos, ne_eq, not_false_eq_true, if_true]
  by_cases hr : db.root = [] <;> simp [hr]

/-- Witness for the amended C7: two branch rows, both with NULL versions, a
root row and an empty orphan table. -/
theorem claimC7_witness :
    migrateTree dbNullVersions = .ok
      { root := dbNullVersions.root, branch_orphan := [], shards := [] } :=
  claimC7_amended dbNullVersions [] rfl (by decide) (by decide)

-- Claim C8 (corrected): row-copy failures are fatal too, not returned.

/-- C8 counterexample: a failure of the row-copy `INSERT ... SELECT` into
shard table `tree_1` runs through `exec` and therefore aborts the process
(`log.Fatalf`); it is not returned as an error to the caller. -/
theorem claimC8_counterexample :
    migrateTreeE dbSimple oracleInsertShard1Fails = .fatal (.insertShard 1) := by
  decide

set_option maxHeartbeats 2000000 in
/-- C8 (amended): in the tree migrator, every statement executed through the
`exec` helper — table creation and equally the `INSERT ... SELECT` row
copies for root, branch-orphan and the shard tables — terminates the process
on failure; returned errors arise only from opening the databases, creating
the target directory, and the count / min-max queries. -/
theorem claimC8_amended (db : TreeDB) (o : TreeOracle) :
    (o.openOldFails = false → o.mkdirFails = false → o.openNewFails = false →
      o.countTreeFails = false → o.countRootFails = false → o.minMaxFails = false →
      ∀ m, migrateTreeE db o ≠ .err m) ∧
    ((∀ s, o.execFails s = false) → db.orphan.isSome = true →
      ∀ s, migrateTreeE db o ≠ .fatal s) := by
  constructor
  · intro h1 h2 h3 h4 h5 h6 m
    unfold migrateTreeE
    simp only [h1, h2, h3, h4, h5, h6, Bool.false_eq_true, if_false]
    repeat' split
    all_goals exact fun hcontra => TreeResult.noConfusion hcontra
  · intro hex hsome s
    have hnone : db.orphan.isNone = false := by
      cases horph : db.orphan
      · rw [horph] at hsome
        simp at hsome
      · simp
    unfold migrateTreeE
    simp only [hex, Bool.false_eq_true, if_false, Bool.false_or, hnone, and_false,
      find?_const_false]
    repeat' split
    all_goals exact fun hcontra => TreeResult.noConfusion hcontra

/-- Witness for the amended C8: on a healthy run nothing is returned as an
error and nothing is fatal. -/
theorem claimC8_witness :
    migrateTreeE dbSimple treeAllOk ≠ .err "boom" ∧
    migrateTreeE dbSimple treeAllOk ≠ .fatal .detachOld :=
  ⟨(claimC8_amended dbSimple treeAllOk).1 rfl rfl rfl rfl rfl rfl "boom",
   (claimC8_amended dbSimple treeAllOk).2 (fun _ => rfl) rfl .detachOld⟩

-- Claim C5: the changelog migration is atomic.

/-- Exhaustive case analysis of one `migrateChangelog` run: either some
checked pre-commit step failed (nothing committed, no detach, an error
returned), or the leaf loop returned `.ok` and the run committed its result,
with `DETACH` failing or succeeding afterwards. -/
theorem migrateChangelogE_cases (H : List Nat → List Nat) (db : ChangelogDB)
    (o : CLOracle) :
    (∃ m, migrateChangelogE H db o =
      { committed := none, detached := false, err := some m }) ∨
    (∃ leafRows, insertLeafRows H o 0 db.leaf [] = .ok leafRows ∧
      (migrateChangelogE H db o =
        { committed := some { leaf := leafRows, leaf_orphan := db.leaf_orphan },
          detached := false, err := some "failed to detach old database" } ∨
       migrateChangelogE H db o =
        { committed := some { leaf := leafRows, leaf_orphan := db.leaf_orphan },
          detached := true, err := none })) := by
  unfold migrateChangelogE
  cases h1 : o.openOldFails with
  | true =>
    exact Or.inl ⟨_, rfl⟩
  | false =>
    cases h2 : o.mkdirFails with
    | true =>
      exact Or.inl ⟨_, rfl⟩
    | false =>
      cases h3 : o.openNewFails with
      | true =>
        exact Or.inl ⟨_, rfl⟩
      | false =>
        cases h4 : o.beginFails with
        | true =>
          exact Or.inl ⟨_, rfl⟩
        | false =>
          cases h5 : o.createLeafFails with
          | true =>
            exact Or.inl ⟨_, rfl⟩
          | false =>
            cases h6 : o.createLeafIdxFails with
            | true =>
              exact Or.inl ⟨_, rfl⟩
            | false =>
              cases h7 : o.createLeafOrphanFails with
              | true =>
                exact Or.inl ⟨_, rfl⟩
              | false =>
                cases h8 : o.readLeafFails with
                | true =>
                  exact Or.inl ⟨_, rfl⟩
                | false =>
                  cases h9 : o.prepareFails with
                  | true =>
                    exact Or.inl ⟨_, rfl⟩
                  | false =>
                    cases hm : insertLeafRows H o 0 db.leaf [] with
                    | error m =>
                      exact Or.inl ⟨_, rfl⟩
                    | ok leafRows =>
                      cases h10 : o.attachFails with
                      | true =>
                        exact Or.inl ⟨_, rfl⟩
                      | false =>
                        cases h11 : o.orphanCopyFails with
                        | true =>
                          exact Or.inl ⟨_, rfl⟩
                        | false =>
                          cases h12 : o.commitFails with
                          | true =>
                            exact Or.inl ⟨_, rfl⟩
                          | false =>
                            cases h13 : o.detachFails with
                            | true =>
                              exact Or.inr ⟨leafRows, rfl, Or.inl rfl⟩
                            | false =>
                              exact Or.inr ⟨leafRows, rfl, Or.inr rfl⟩

/-- C5 (code bug): the source's leaf loop `for rows.Next() { ... }` is never
followed by a `rows.Err()` check, so a mid-iteration cursor failure ends the
loop exactly like normal exhaustion.  On a two-row source whose cursor fails
before the second row, the run commits a destination holding only the first
re-keyed leaf row — a partial leaf set — together with the full leaf-orphan
copy, detaches, and returns no error; the claimed (and intended)
roll-back-and-propagate behaviour does not happen on this path. -/
theorem claimC5_partial_commit :
    clDbEx.leaf.length = 2 ∧
    migrateChangelogE constHash clDbEx oracleIterBreak1 =
      { committed := some
          { leaf := [{ version := 1, sequence := 1, key_hash := [0], bytes := [1] }],
            leaf_orphan := [{ version := 1, sequence := 1, at_ := 2 }] },
        detached := true, err := none } :=
  ⟨rfl, by decide⟩

-- Claim C6: leaf re-keying.

theorem leafConflict_eq_false {acc : List NewLeafRow} {r : NewLeafRow}
    (h : ∀ a ∈ acc, ¬ LeafConflictP a r) : leafConflict acc r = false := by
  rw [leafConflict, List.any_eq_false]
  intro a ha
  have := h a ha
  rw [LeafConflictP] at this
  simp only [Bool.or_eq_true, Bool.and_eq_true, beq_iff_eq, not_or] at this ⊢
  tauto

/-- The leaf loop with no injected failures and no constraint conflicts
re-keys every row in order. -/
theorem insertLeafRows_allOk (H : List Nat → List Nat) :
    ∀ (rows : List OldLeafRow) (i : Nat) (acc : List NewLeafRow),
      (∀ a ∈ acc, ∀ r ∈ rows, ¬ LeafConflictP a (reKey H r)) →
      (rows.map (reKey H)).Pairwise (fun a b => ¬ LeafConflictP a b) →
      insertLeafRows H clAllOk i rows acc = .ok (acc ++ rows.map (reKey H)) := by
  intro rows
  induction rows with
  | nil =>
    intro i acc _ _
    simp [insertLeafRows]
  | cons r rs ih =>
    intro i acc hacc hpw
    have hconf : leafConflict acc (reKey H r) = false :=
      leafConflict_eq_false (fun a ha => hacc a ha r (List.mem_cons_self _ _))
    have e0 : clAllOk.iterBreaks i = false := rfl
    have e1 : clAllOk.scanFails i = false := rfl
    have e2 : clAllOk.insertFails i = false := rfl
    simp only [insertLeafRows, e0, e1, e2, Bool.false_eq_true, if_false, hconf, Bool.or_self]
    rw [List.map_cons] at hpw
    have hpw' := List.pairwise_cons.mp hpw
    have hstep := ih (i + 1) (acc ++ [reKey H r])
      (by
        intro a ha r' hr'
        rcases List.mem_append.mp ha with ha1 | ha1
        · exact hacc a ha1 r' (List.mem_cons_of_mem _ hr')
        · rcases List.mem_singleton.mp ha1 with rfl
          exact hpw'.1 (reKey H r') (List.mem_map_of_mem _ hr'))
      hpw'.2
    rw [hstep]
    simp

/-- C6: for every source leaf row `(V, S, K, B)`, a successful
`migrateChangelog` run commits into the target leaf table the row
`(V, S, H K, B)` — same version, sequence and payload, keyed by the hash of
`K` — and nothing else; the target row type carries no `orphaned` flag, so
the source flag is not carried over.  Hash collisions between different
source keys are not a crash: at different versions they violate no
constraint (see the witness, whose two keys collide), and at the same
version the insert's constraint failure is returned as an ordinary error. -/
theorem claimC6_changelog_rekey (H : List Nat → List Nat) (db : ChangelogDB)
    (hnc : (db.leaf.map (reKey H)).Pairwise (fun a b => ¬ LeafConflictP a b)) :
    migrateChangelog H db =
      { committed := some { leaf := db.leaf.map (reKey H), leaf_orphan := db.leaf_orphan },
        detached := true, err := none } := by
  have hrows := insertLeafRows_allOk H db.leaf 0 [] (by intro a ha; cases ha) hnc
  unfold migrateChangelog migrateChangelogE
  rw [hrows]
  simp only [clAllOk, Bool.false_eq_true, if_false, List.nil_append]

/-- Witness for C6: both source keys hash to `[0]` under `constHash` (a
collision) at distinct versions; the run succeeds, re-keys both rows and
drops their `orphaned` flags. -/
theorem claimC6_witness :
    migrateChangelog constHash clDbEx =
      { committed := some
          { leaf := [{ version := 1, sequence := 1, key_hash := [0], bytes := [1] },
                     { version := 2, sequence := 1, key_hash := [0], bytes := [2] }],
            leaf_orphan := [{ version := 1, sequence := 1, at_ := 2 }] },
        detached := true, err := none } :=
  claimC6_changelog_rekey constHash clDbEx (by
    constructor
    · intro b hb
      rcases List.mem_singleton.mp hb with rfl
      rw [LeafConflictP]
      simp [reKey, clDbEx, constHash]
    · simp)

-- Claim C9 (corrected): the two existence checks are sequential, so a
-- missing changelog file is only reported after the tree migration succeeds.

/-- C9 counterexample: the changelog data file is absent, yet `migrateStore`
fails with the tree migration's count-query error, not with a "not found"
error naming the missing changelog file (the changelog file is only checked
after the tree migration succeeds). -/
theorem claimC9_counterexample :
    envTreeErrNoChangelog.changelogFileExists = false ∧
    migrateStore constHash "s" "old" envTreeErrNoChangelog =
      (.err "failed to count rows in tree_1", false) :=
  ⟨rfl, by decide⟩

/-- C9 (amended): `migrateStore` fails with a "not found" error naming the
tree file when it is absent; when the tree file is present and the tree
migration succeeds, it fails with a "not found" error naming the changelog
file if that is absent; and the changelog migration is started only when the
tree file existed and the tree migration returned success. -/
theorem claimC9_amended (H : List Nat → List Nat) (store baseOld : String)
    (env : StoreEnv) :
    (env.treeFileExists = false →
      migrateStore H store baseOld env =
        (.err ("tree.sqlite not found: " ++ (baseOld ++ "/" ++ store ++ "/tree.sqlite")),
         false)) ∧
    (env.treeFileExists = true → env.changelogFileExists = false →
      ∀ d, migrateTreeE env.treeDB env.treeOracle = .ok d →
        migrateStore H store baseOld env =
          (.err ("changelog.sqlite not found: " ++
            (baseOld ++ "/" ++ store ++ "/changelog.sqlite")), false)) ∧
    ((migrateStore H store baseOld env).2 = true →
      env.treeFileExists = true ∧ env.changelogFileExists = true ∧
      ∃ d, migrateTreeE env.treeDB env.treeOracle = .ok d) := by
  unfold migrateStore
  cases ht : env.treeFileExists with
  | false =>
    refine ⟨fun _ => rfl, fun hcontra => Bool.noConfusion hcontra, fun hcontra => ?_⟩
    exact Bool.noConfusion hcontra
  | true =>
    cases hmt : migrateTreeE env.treeDB env.treeOracle with
    | ok d =>
      cases hcl : env.changelogFileExists with
      | false =>
        refine ⟨fun hcontra => Bool.noConfusion hcontra, fun _ _ d' _ => rfl,
          fun hcontra => ?_⟩
        exact Bool.noConfusion hcontra
      | true =>
        cases hce : (migrateChangelogE H env.clDB env.clOracle).err with
        | none =>
          exact ⟨fun hcontra => Bool.noConfusion hcontra,
            fun _ hcontra => Bool.noConfusion hcontra,
            fun _ => ⟨rfl, rfl, d, rfl⟩⟩
        | some m =>
          exact ⟨fun hcontra => Bool.noConfusion hcontra,
            fun _ hcontra => Bool.noConfusion hcontra,
            fun _ => ⟨rfl, rfl, d, rfl⟩⟩
    | err m =>
      refine ⟨fun hcontra => Bool.noConfusion hcontra,
        fun _ _ d' hcontra => TreeResult.noConfusion hcontra, fun hcontra => ?_⟩
      exact Bool.noConfusion hcontra
    | fatal s =>
      refine ⟨fun hcontra => Bool.noConfusion hcontra,
        fun _ _ d' hcontra => TreeResult.noConfusion hcontra, fun hcontra => ?_⟩
      exact Bool.noConfusion hcontra

/-- Witness for the amended C9: a healthy store runs the changelog migration,
and the tree migration had succeeded. -/
theorem claimC9_witness :
    envHealthy.treeFileExists = true ∧ envHealthy.changelogFileExists = true ∧
    ∃ d, migrateTreeE envHealthy.treeDB envHealthy.treeOracle = .ok d :=
  (claimC9_amended constHash "s" "old" envHealthy).2.2 (by decide)
